import Mathlib

/-!
Shallow embedding of the infinity-math LMS core: the R2 upload pipeline
(`src/lib/r2/upload.ts`, the streaming upload POST handler) and the
content-access gate (the course access / content / first-content route
handlers).  Numbers that are JS floats in the source (quiz percentages)
are modelled as exact rationals; byte counts and timestamps are naturals.
-/

namespace InfinityMath

/-! ## Upload pipeline: `src/lib/r2/upload.ts` -/

/-- The character class kept by `sanitizeFilename` (regex `[^a-zA-Z0-9.-]`
is replaced): ASCII letters, digits, `.` and `-`. -/
def isSafeFilenameChar (c : Char) : Bool :=
  c.isAlphanum || c == '.' || c == '-'

/-- `sanitizeFilename`: replace every character outside `[a-zA-Z0-9.-]`
with `_` (the regex substitutes character by character). -/
def sanitizeFilename (originalName : String) : String :=
  String.mk (originalName.data.map (fun c => if isSafeFilenameChar c then c else '_'))

/-- The fixed `EXT_TO_MIME` table of `src/lib/r2/upload.ts`. -/
def extToMime (ext : String) : Option String :=
  if ext = "mp4" then some "video/mp4"
  else if ext = "webm" then some "video/webm"
  else if ext = "ogg" then some "video/ogg"
  else if ext = "mov" then some "video/mp4"
  else if ext = "mp3" then some "audio/mpeg"
  else if ext = "wav" then some "audio/wav"
  else if ext = "png" then some "image/png"
  else if ext = "jpg" then some "image/jpeg"
  else if ext = "jpeg" then some "image/jpeg"
  else if ext = "gif" then some "image/gif"
  else if ext = "webp" then some "image/webp"
  else if ext = "pdf" then some "application/pdf"
  else none

/-- `filename.toLowerCase().split(".").pop() || ""`: the final dot-separated
segment of the lower-cased filename (`split` always yields at least one
segment, so `pop()` is the last one; an empty final segment stays empty). -/
def lastExtension (filename : String) : String :=
  ((filename.toLower.splitOn ".").getLast?).getD ""

/-- `guessContentType(filename, fallback)`: look the extension up in the
fixed table, otherwise return the fallback. -/
def guessContentType (filename : String) (fallback : String) : String :=
  match extToMime (lastExtension filename) with
  | some m => m
  | none => fallback

/-- `generateR2Key(originalName, folder?)`.  The timestamp and the random id
are inputs here (the source draws them from `Date.now()` / `randomUUID()`);
`folder ? ... : ...` is JS truthiness, so an empty-string folder behaves
like an absent one. -/
def generateR2Key (ts : Nat) (rid : String) (originalName : String)
    (folder : Option String) : String :=
  let safe := sanitizeFilename originalName
  let body := toString ts ++ "-" ++ rid ++ "-" ++ safe
  match folder with
  | none => body
  | some f => if f = "" then body else f ++ "/" ++ body

/-- Modelled from the spec (§4.1 contract) for comparison with
`generateR2Key`: produce `{folder/}{ts}-{id}-{sanitizedName}` where the
folder segment is present exactly when a folder is supplied. -/
def generateKeySpec (ts : Nat) (rid : String) (originalName : String)
    (folder : Option String) : String :=
  let body := toString ts ++ "-" ++ rid ++ "-" ++ sanitizeFilename originalName
  match folder with
  | none => body
  | some f => f ++ "/" ++ body

/-- `joinPublicUrl(publicBaseUrl, key)`: an empty (falsy) base URL yields the
bare key; otherwise exactly one slash separates base and key. -/
def joinPublicUrl (publicBaseUrl : String) (key : String) : String :=
  if publicBaseUrl = "" then key
  else if publicBaseUrl.endsWith "/" then publicBaseUrl ++ key
  else publicBaseUrl ++ "/" ++ key

/-! ## Upload POST handler (streamed response) -/

/-- The file fields the handler reads: `file.name`, `file.type`,
`file.size`. -/
structure UploadFile where
  name : String
  type : String
  size : Nat
deriving DecidableEq, Repr

/-- The handler's content-type choice: prefer the browser-provided type
unless it is empty (falsy) or `application/octet-stream`; otherwise fall
back to extension detection. -/
def resolveUploadContentType (f : UploadFile) : String :=
  if f.type ≠ "" ∧ f.type ≠ "application/octet-stream" then f.type
  else guessContentType f.name "application/octet-stream"

/-- One `httpUploadProgress` callback payload: `progress.loaded` and
`progress.total` may each be undefined. -/
structure ProgressCallback where
  loaded : Option Nat
  total : Option Nat
deriving DecidableEq, Repr

/-- An emitted progress event `{progress, loaded, total}`. -/
structure ProgressEvent where
  progress : Nat
  loaded : Nat
  total : Nat
deriving DecidableEq, Repr

/-- `Math.round((loaded / total) * 100)` on exact rationals: round half up.
Only called with `total ≠ 0`. -/
def jsRound100 (loaded total : Nat) : Nat :=
  (200 * loaded + total) / (2 * total)

/-- One iteration of the `httpUploadProgress` listener with the current
`lastPercent` state: returns the new `lastPercent` and the emitted event,
or `none` when the callback is suppressed (`!total`, or
`percent <= lastPercent`). -/
def processCallback (fileSize : Nat) (lastPercent : Nat)
    (cb : ProgressCallback) : Option (Nat × ProgressEvent) :=
  let loaded := cb.loaded.getD 0
  let total := cb.total.getD fileSize
  if total = 0 then none
  else
    let raw := jsRound100 loaded total
    let percent := min 99 raw
    if percent ≤ lastPercent then none
    else some (percent, ⟨percent, loaded, total⟩)

/-- The sequence of progress events actually enqueued for a given sequence
of callbacks, threading `lastPercent` (initially 0). -/
def emitProgress (fileSize : Nat) : List ProgressCallback → Nat → List ProgressEvent
  | [], _ => []
  | cb :: rest, lastPercent =>
    match processCallback fileSize lastPercent cb with
    | none => emitProgress fileSize rest lastPercent
    | some (p, ev) => ev :: emitProgress fileSize rest p

/-- Events written to the streamed response body. -/
inductive StreamEvent where
  | progress (ev : ProgressEvent)
  | done (key url name contentType : String) (size : Nat)
  | error (message : String)
deriving DecidableEq, Repr

/-- Terminal events are `done` and `error`. -/
def isTerminalEvent : StreamEvent → Bool
  | .progress _ => false
  | .done _ _ _ _ _ => true
  | .error _ => true

/-- The R2 configuration read from the environment; an unset variable is the
empty string (`?? ""`). -/
structure UploadConfig where
  bucketName : String
  publicUrl : String
deriving DecidableEq, Repr

/-- `err?.message || "Failed to upload file"`. -/
def errorMessageOr (msg : String) : String :=
  if msg = "" then "Failed to upload file" else msg

/-- The event sequence produced by the stream's `start` body: a missing
bucket name throws before any progress (caught as an error event); otherwise
the progress events fired before `upload.done()` settles, followed by the
single `done` event on success or the single `error` event when the upload
rejects.  `outcome` is the result of `await upload.done()`; on failure,
`callbacks` are the progress callbacks that fired before the failure. -/
def uploadStreamEvents (cfg : UploadConfig) (f : UploadFile) (key : String)
    (callbacks : List ProgressCallback) (outcome : Except String Unit) :
    List StreamEvent :=
  if cfg.bucketName = "" then
    [.error (errorMessageOr "R2_BUCKET_NAME is not set")]
  else
    let progressEvents := (emitProgress f.size callbacks 0).map StreamEvent.progress
    match outcome with
    | .ok _ =>
        progressEvents ++
          [.done key (joinPublicUrl cfg.publicUrl key) f.name
            (resolveUploadContentType f) f.size]
    | .error msg => progressEvents ++ [.error (errorMessageOr msg)]

/-! ## Content access gate: data model -/

/-- One `QuizResult` row for a (student, quiz) pair; `percentage` is a JS
float, modelled as a rational, `submittedAt` a timestamp. -/
structure QuizResult where
  percentage : ℚ
  submittedAt : Nat
deriving DecidableEq, Repr

/-- A published chapter, with the fields the gate reads. -/
structure Chapter where
  id : String
  position : Int
  isFree : Bool
  requirePassingQuiz : Bool
  requiredQuizId : Option String
deriving DecidableEq, Repr

/-- A published quiz, with the fields the gate reads. -/
structure Quiz where
  id : String
  title : String
  position : Int
deriving DecidableEq, Repr

/-- A merged catalog entry (`type: 'chapter' | 'quiz'`). -/
inductive ContentItem where
  | chapter (c : Chapter)
  | quiz (q : Quiz)
deriving DecidableEq, Repr

def ContentItem.isQuiz : ContentItem → Bool
  | .quiz _ => true
  | .chapter _ => false

/-- A purchase row as the routes read it: owner and status string. -/
structure Purchase where
  userId : String
  status : String
deriving DecidableEq, Repr

/-- A course as the routes read it (`price` is compared to `0` with `===`).
-/
structure Course where
  id : String
  price : Int
deriving DecidableEq, Repr

/-- The derived lock annotation attached to each catalog entry. -/
structure LockState where
  isLocked : Bool
  lockReason : Option String
deriving DecidableEq, Repr

/-! ## `GET /courses/{courseId}/access` (the route that returns
`hasAccess` / `hasPurchase`) -/

/-- The response body of the access route. -/
structure AccessResponse where
  hasAccess : Bool
  hasPurchase : Bool
deriving DecidableEq, Repr

/-- The access route's computation over the caller's purchase rows on the
course: `validPurchase = purchases.some(p => p.status === "ACTIVE")`, then
both response fields are set to `validPurchase`.  The course row is fetched
(404 when absent) but its fields are not consulted. -/
def accessRoute (course : Course) (userPurchases : List Purchase) :
    AccessResponse :=
  let validPurchase := userPurchases.any (fun p => p.status == "ACTIVE")
  ⟨validPurchase, validPurchase⟩

/-! ## The catalog routes' course-access predicate -/

/-- `hasAccess = course.price === 0 || course.purchases.length > 0`, where
the included `purchases` are pre-filtered by `{userId, status: "ACTIVE"}`.
Here `purchases` is the full purchase list of the course and the query
filter is applied explicitly. -/
def catalogHasAccess (course : Course) (userId : String)
    (purchases : List Purchase) : Bool :=
  let active := purchases.filter (fun p => p.userId == userId && p.status == "ACTIVE")
  course.price == 0 || active.length > 0

/-! ## Lock evaluation (the content route's `allContent` map) -/

/-- JS `Array.prototype.reduce` with no seed over a nonempty result list:
keep the element with the strictly greater percentage. -/
def bestOf (r : QuizResult) (rs : List QuizResult) : QuizResult :=
  rs.foldl (fun best current =>
    if current.percentage > best.percentage then current else best) r

/-- The `orderBy submittedAt desc, take 1` fetch used for a chapter's
required quiz: the most recent result (greatest `submittedAt`; the first
encountered wins ties, matching an arbitrary but fixed store order). -/
def latestResult (rs : List QuizResult) : Option QuizResult :=
  match rs with
  | [] => none
  | r :: rest =>
      some (rest.foldl (fun acc cur =>
        if cur.submittedAt > acc.submittedAt then cur else acc) r)

def buyCourseReason : String := "يجب شراء الكورس أولاً"

def requiredQuizReason : String :=
  "يجب اجتياز الاختبار المطلوب بنسبة 50% على الأقل"

def seqReason (q : Quiz) : String :=
  "يجب اجتياز الاختبار \"" ++ q.title ++ "\" بنسبة 50% على الأقل أولاً"

/-- The explicit `requirePassingQuiz` check of the content route: locked
(with its reason) when the chapter demands a quiz and either the caller
lacks access / a session, or the single fetched (most recent) result is
absent or below 50. -/
def requiredQuizLock (hasAccess hasUser : Bool) (c : Chapter)
    (results : String → List QuizResult) : Option String :=
  if c.requirePassingQuiz && c.requiredQuizId.isSome then
    if !hasAccess || !hasUser then some buyCourseReason
    else
      match c.requiredQuizId with
      | none => none
      | some qid =>
          match latestResult (results qid) with
          | none => some requiredQuizReason
          | some r => if r.percentage < 50 then some requiredQuizReason else none
  else none

/-- The backward `for (let i = index - 1; i >= 0; i--)` scan: the first quiz
met while walking the preceding items in reverse. -/
def findPrevQuiz : List ContentItem → Option Quiz
  | [] => none
  | .quiz q :: _ => some q
  | .chapter _ :: rest => findPrevQuiz rest

/-- The nearest quiz strictly before index `i` in the merged catalog. -/
def nearestPrecedingQuiz (catalog : List ContentItem) (i : Nat) : Option Quiz :=
  findPrevQuiz (catalog.take i).reverse

/-- The sequential-access check shared by the chapter and quiz branches:
find the nearest preceding quiz and, if there is one, lock when the learner
has no result for it or the best (reduce-max) percentage is below 50.  The
scan breaks at the first quiz found either way. -/
def seqLock (results : String → List QuizResult) (catalog : List ContentItem)
    (i : Nat) : Option String :=
  match nearestPrecedingQuiz catalog i with
  | none => none
  | some q =>
      match results q.id with
      | [] => some (seqReason q)
      | r :: rest =>
          if (bestOf r rest).percentage < 50 then some (seqReason q) else none

/-- The chapter branch of the content route's map: the explicit required-
quiz check first, then (only with access and a session) the sequential
check.  Study-type locking is deliberately not done in this route. -/
def evalChapter (hasAccess hasUser : Bool) (results : String → List QuizResult)
    (catalog : List ContentItem) (i : Nat) (c : Chapter) : LockState :=
  match requiredQuizLock hasAccess hasUser c results with
  | some reason => ⟨true, some reason⟩
  | none =>
      if hasAccess && hasUser then
        match seqLock results catalog i with
        | some reason => ⟨true, some reason⟩
        | none => ⟨false, none⟩
      else ⟨false, none⟩

/-- The quiz branch of the content route's map: only the sequential check,
gated by access and a session. -/
def evalQuiz (hasAccess hasUser : Bool) (results : String → List QuizResult)
    (catalog : List ContentItem) (i : Nat) : LockState :=
  if hasAccess && hasUser then
    match seqLock results catalog i with
    | some reason => ⟨true, some reason⟩
    | none => ⟨false, none⟩
  else ⟨false, none⟩

/-- Per-item lock evaluation at index `i`. -/
def evalItem (hasAccess hasUser : Bool) (results : String → List QuizResult)
    (catalog : List ContentItem) (i : Nat) : ContentItem → LockState
  | .chapter c => evalChapter hasAccess hasUser results catalog i c
  | .quiz _ => evalQuiz hasAccess hasUser results catalog i

/-- The content route's response: every merged catalog entry annotated with
its lock state (`allContentUnsorted.map((content, index) => ...)`). -/
def annotateCatalog (hasAccess hasUser : Bool)
    (results : String → List QuizResult) (catalog : List ContentItem) :
    List (ContentItem × LockState) :=
  catalog.enum.map (fun p => (p.2, evalItem hasAccess hasUser results catalog p.1 p.2))

/-! ## Theorems -/

/-- C9: `generateR2Key` produces `{folder/}{ts}-{id}-{sanitizedName}` with
the folder segment present exactly when a (non-empty, i.e. truthy) folder is
supplied, agreeing with the spec-shaped `generateKeySpec`; and the sanitized
segment contains only characters from `[A-Za-z0-9._-]`. -/
theorem c9_generate_key_shape (ts : Nat) (rid : String) (name : String)
    (folder : Option String) (hf : ∀ f, folder = some f → f ≠ "") :
    generateR2Key ts rid name folder = generateKeySpec ts rid name folder ∧
    (sanitizeFilename name).data.all
      (fun c => c.isAlphanum || c == '.' || c == '_' || c == '-') = true := by
  constructor
  · cases folder with
    | none => rfl
    | some f =>
        simp only [generateR2Key, generateKeySpec]
        rw [if_neg (hf f rfl)]
  · simp only [sanitizeFilename, List.all_map, List.all_eq_true, Function.comp]
    intro c _
    by_cases h : isSafeFilenameChar c = true
    · simp only [if_pos h, Bool.or_eq_true, beq_iff_eq]
      simp only [isSafeFilenameChar, Bool.or_eq_true, beq_iff_eq] at h
      tauto
    · simp [if_neg h]

/-- C9 witness: the theorem instantiated at a concrete name and folder. -/
theorem c9_witness :
    generateR2Key 1700000000000 "uuid" "my file (1).mp4" (some "videos") =
      generateKeySpec 1700000000000 "uuid" "my file (1).mp4" (some "videos") ∧
    (sanitizeFilename "my file (1).mp4").data.all
      (fun c => c.isAlphanum || c == '.' || c == '_' || c == '-') = true :=
  c9_generate_key_shape 1700000000000 "uuid" "my file (1).mp4" (some "videos")
    (fun _ h => by injection h with h2; rw [← h2]; decide)

/-- C10: the upload handler's content type equals the browser-supplied
`file.type` whenever that is non-empty and not `application/octet-stream`;
otherwise (and only then) the extension resolver is consulted; and the
terminal success event reports exactly that resolved content type. -/
theorem c10_browser_type_precedence (f : UploadFile) (cfg : UploadConfig)
    (key : String) (cbs : List ProgressCallback)
    (hb : cfg.bucketName ≠ "") :
    (f.type ≠ "" ∧ f.type ≠ "application/octet-stream" →
      resolveUploadContentType f = f.type) ∧
    (f.type = "" ∨ f.type = "application/octet-stream" →
      resolveUploadContentType f =
        guessContentType f.name "application/octet-stream") ∧
    (uploadStreamEvents cfg f key cbs (.ok ())).getLast? =
      some (.done key (joinPublicUrl cfg.publicUrl key) f.name
        (resolveUploadContentType f) f.size) := by
  refine ⟨?_, ?_, ?_⟩
  · intro h
    simp only [resolveUploadContentType, if_pos h]
  · intro h
    have h2 : ¬(f.type ≠ "" ∧ f.type ≠ "application/octet-stream") := by
      rcases h with h | h <;> simp [h]
    simp only [resolveUploadContentType, if_neg h2]
  · simp only [uploadStreamEvents, if_neg hb]
    exact List.getLast?_concat _

/-- C10 witness: concrete browser-typed file on a configured bucket. -/
theorem c10_witness :
    ("video/mp4" ≠ "" ∧ "video/mp4" ≠ "application/octet-stream" →
      resolveUploadContentType ⟨"a.bin", "video/mp4", 7⟩ = "video/mp4") ∧
    ("video/mp4" = "" ∨ "video/mp4" = "application/octet-stream" →
      resolveUploadContentType ⟨"a.bin", "video/mp4", 7⟩ =
        guessContentType "a.bin" "application/octet-stream") ∧
    (uploadStreamEvents ⟨"bucket", "https://cdn"⟩ ⟨"a.bin", "video/mp4", 7⟩
        "k" [] (.ok ())).getLast? =
      some (.done "k" (joinPublicUrl "https://cdn" "k") "a.bin"
        (resolveUploadContentType ⟨"a.bin", "video/mp4", 7⟩) 7) :=
  c10_browser_type_precedence ⟨"a.bin", "video/mp4", 7⟩ ⟨"bucket", "https://cdn"⟩
    "k" [] (by decide)

/-- C7 counterexample: with the public base URL configuration empty, a
successful upload still emits a success event whose `url` is the bare key —
the pipeline silently degrades instead of failing fast, contradicting the
claim. -/
theorem c7_counterexample :
    uploadStreamEvents ⟨"bucket", ""⟩ ⟨"a.mp4", "video/mp4", 10⟩ "k" []
      (.ok ()) = [.done "k" "k" "a.mp4" "video/mp4" 10] := by decide

/-- C7 amended: a missing bucket name fails on first use with the clear
message `R2_BUCKET_NAME is not set`; a missing public base URL does NOT
fail — `joinPublicUrl` falls back to the bare key, and the success event
silently reports that degraded url. -/
theorem c7_config_handling (pub : String) (cfg : UploadConfig)
    (f : UploadFile) (key : String) (cbs : List ProgressCallback)
    (outcome : Except String Unit)
    (hb : cfg.bucketName ≠ "") (hp : cfg.publicUrl = "") :
    uploadStreamEvents ⟨"", pub⟩ f key cbs outcome =
      [.error "R2_BUCKET_NAME is not set"] ∧
    joinPublicUrl "" key = key ∧
    (uploadStreamEvents cfg f key cbs (.ok ())).getLast? =
      some (.done key key f.name (resolveUploadContentType f) f.size) := by
  refine ⟨?_, rfl, ?_⟩
  · simp only [uploadStreamEvents, if_pos rfl]
    rfl
  · simp only [uploadStreamEvents, if_neg hb, hp]
    rw [List.getLast?_concat]
    rfl

/-- C7 witness: the amended theorem at a concrete configuration. -/
theorem c7_witness :
    uploadStreamEvents ⟨"", "https://cdn"⟩ ⟨"a.mp4", "video/mp4", 10⟩ "k" []
      (.ok ()) = [.error "R2_BUCKET_NAME is not set"] ∧
    joinPublicUrl "" "k" = "k" ∧
    (uploadStreamEvents ⟨"bucket", ""⟩ ⟨"a.mp4", "video/mp4", 10⟩ "k" []
        (.ok ())).getLast? =
      some (.done "k" "k" "a.mp4"
        (resolveUploadContentType ⟨"a.mp4", "video/mp4", 10⟩) 10) :=
  c7_config_handling "https://cdn" ⟨"bucket", ""⟩ ⟨"a.mp4", "video/mp4", 10⟩
    "k" [] (.ok ()) (by decide) rfl

/-- C2 counterexample: for a free course (price 0) with no purchase record
the access route returns `hasAccess = false` (the claim requires `true`) and
the two signals are the same value. -/
theorem c2_counterexample :
    (accessRoute ⟨"course1", 0⟩ []).hasAccess = false ∧
    (accessRoute ⟨"course1", 0⟩ []).hasPurchase = false := ⟨rfl, rfl⟩

/-- C2 amended: the access route collapses the two signals — `hasAccess`
always equals `hasPurchase`, both are true exactly when an ACTIVE purchase
row exists, and the course row (price included) is never consulted. -/
theorem c2_access_route_collapsed (course : Course) (ps : List Purchase) :
    (accessRoute course ps).hasAccess = (accessRoute course ps).hasPurchase ∧
    ((accessRoute course ps).hasAccess = true ↔
      ∃ p ∈ ps, p.status = "ACTIVE") ∧
    ∀ c2 : Course, accessRoute c2 ps = accessRoute course ps := by
  refine ⟨rfl, ?_, fun _ => rfl⟩
  simp [accessRoute, List.any_eq_true]

/-- C8: the catalog routes' course-access predicate is true iff the course
price is 0 or the user owns an ACTIVE purchase of the course. -/
theorem c8_access_predicate (course : Course) (uid : String)
    (ps : List Purchase) :
    catalogHasAccess course uid ps = true ↔
      course.price = 0 ∨ ∃ p ∈ ps, p.userId = uid ∧ p.status = "ACTIVE" := by
  simp only [catalogHasAccess, Bool.or_eq_true, beq_iff_eq, gt_iff_lt,
    decide_eq_true_eq, List.length_pos_iff_exists_mem, List.mem_filter,
    Bool.and_eq_true]

lemma processCallback_eq_some {fileSize lastPercent p : Nat}
    {cb : ProgressCallback} {ev : ProgressEvent}
    (h : processCallback fileSize lastPercent cb = some (p, ev)) :
    lastPercent < p ∧ p ≤ 99 ∧ ev.progress = p := by
  simp only [processCallback] at h
  split at h
  · simp at h
  · split at h
    · simp at h
    · next hle =>
        rw [Option.some.injEq, Prod.mk.injEq] at h
        obtain ⟨hp, hev⟩ := h
        subst hp
        refine ⟨Nat.lt_of_not_le hle, Nat.min_le_left _ _, ?_⟩
        rw [← hev]

lemma emitProgress_mem {fileSize : Nat} :
    ∀ (cbs : List ProgressCallback) (lastPercent : Nat) (ev : ProgressEvent),
      ev ∈ emitProgress fileSize cbs lastPercent →
        lastPercent < ev.progress ∧ ev.progress ≤ 99 := by
  intro cbs
  induction cbs with
  | nil => intro last ev h; simp [emitProgress] at h
  | cons cb rest ih =>
      intro last ev h
      cases hpc : processCallback fileSize last cb with
      | none =>
          simp only [emitProgress, hpc] at h
          exact ih last ev h
      | some pe =>
          obtain ⟨pp, pev⟩ := pe
          simp only [emitProgress, hpc] at h
          have hps := processCallback_eq_some hpc
          rcases List.mem_cons.1 h with rfl | hmem
          · rw [hps.2.2]
            exact ⟨hps.1, hps.2.1⟩
          · have h2 := ih pp ev hmem
            exact ⟨lt_trans hps.1 h2.1, h2.2⟩

lemma emitProgress_chain {fileSize : Nat} :
    ∀ (cbs : List ProgressCallback) (lastPercent : Nat),
      List.Chain' (fun a b => a.progress < b.progress)
        (emitProgress fileSize cbs lastPercent) := by
  intro cbs
  induction cbs with
  | nil => intro last; simp [emitProgress]
  | cons cb rest ih =>
      intro last
      cases hpc : processCallback fileSize last cb with
      | none => simp only [emitProgress, hpc]; exact ih last
      | some pe =>
          obtain ⟨pp, pev⟩ := pe
          simp only [emitProgress, hpc]
          have hps := processCallback_eq_some hpc
          cases hrest : emitProgress fileSize rest pp with
          | nil => simp
          | cons b t =>
              rw [List.chain'_cons]
              constructor
              · have hb : b ∈ emitProgress fileSize rest pp := by
                  rw [hrest]; exact List.mem_cons_self _ _
                have h2 := emitProgress_mem rest pp b hb
                rw [hps.2.2]
                exact h2.1
              · exact hrest ▸ ih pp

/-- C5: during one upload the emitted progress events are strictly
increasing, every emitted progress value is at most 99 (so 100 is never
emitted mid-transfer), and a callback whose percentage is not strictly above
the last emitted one produces no event (strictness of the chain). -/
theorem c5_progress_monotone (fileSize : Nat) (cbs : List ProgressCallback) :
    List.Chain' (fun a b => a.progress < b.progress)
      (emitProgress fileSize cbs 0) ∧
    (emitProgress fileSize cbs 0).all
      (fun ev => decide (ev.progress ≤ 99)) = true ∧
    (emitProgress fileSize cbs 0).all
      (fun ev => decide (ev.progress ≠ 100)) = true := by
  refine ⟨emitProgress_chain cbs 0, ?_, ?_⟩
  · rw [List.all_eq_true]
    intro ev hev
    exact decide_eq_true (emitProgress_mem cbs 0 ev hev).2
  · rw [List.all_eq_true]
    intro ev hev
    have h2 := (emitProgress_mem cbs 0 ev hev).2
    exact decide_eq_true (by omega)

lemma progress_events_not_terminal (l : List ProgressEvent) :
    (l.map StreamEvent.progress).all (fun e => !isTerminalEvent e) = true := by
  simp [List.all_map, Function.comp, isTerminalEvent]

/-- C6: every upload response stream is zero or more progress events
followed by exactly one terminal event (`done` or `error`), which is always
last; nothing follows it. -/
theorem c6_single_terminal (cfg : UploadConfig) (f : UploadFile) (key : String)
    (cbs : List ProgressCallback) (outcome : Except String Unit) :
    ∃ ps t, uploadStreamEvents cfg f key cbs outcome = ps ++ [t] ∧
      isTerminalEvent t = true ∧
      ps.all (fun e => !isTerminalEvent e) = true := by
  by_cases hb : cfg.bucketName = ""
  · exact ⟨[], .error (errorMessageOr "R2_BUCKET_NAME is not set"),
      by simp [uploadStreamEvents, hb], rfl, rfl⟩
  · cases outcome with
    | ok u =>
        refine ⟨(emitProgress f.size cbs 0).map StreamEvent.progress,
          .done key (joinPublicUrl cfg.publicUrl key) f.name
            (resolveUploadContentType f) f.size,
          by simp [uploadStreamEvents, hb], rfl,
          progress_events_not_terminal _⟩
    | error msg =>
        refine ⟨(emitProgress f.size cbs 0).map StreamEvent.progress,
          .error (errorMessageOr msg),
          by simp [uploadStreamEvents, hb], rfl,
          progress_events_not_terminal _⟩

lemma bestOf_lt_iff (rs : List QuizResult) : ∀ (r : QuizResult) (x : ℚ),
    ((bestOf r rs).percentage < x ↔ ∀ s ∈ r :: rs, s.percentage < x) := by
  induction rs with
  | nil => intro r x; simp [bestOf]
  | cons a rs ih =>
      intro r x
      have hfold : bestOf r (a :: rs) =
          bestOf (if a.percentage > r.percentage then a else r) rs := rfl
      rw [hfold, ih]
      by_cases h : a.percentage > r.percentage
      · rw [if_pos h]
        constructor
        · intro hall s hs
          rcases List.mem_cons.1 hs with rfl | hs2
          · exact lt_trans h (hall a (List.mem_cons_self _ _))
          · exact hall s hs2
        · intro hall s hs
          exact hall s (List.mem_cons_of_mem _ hs)
      · rw [if_neg h]
        push_neg at h
        constructor
        · intro hall s hs
          rcases List.mem_cons.1 hs with rfl | hs2
          · exact hall s (List.mem_cons_self _ _)
          · rcases List.mem_cons.1 hs2 with rfl | hs3
            · exact lt_of_le_of_lt h (hall r (List.mem_cons_self _ _))
            · exact hall s (List.mem_cons_of_mem _ hs3)
        · intro hall s hs
          rcases List.mem_cons.1 hs with rfl | hs3
          · exact hall s (List.mem_cons_self _ _)
          · exact hall s
              (List.mem_cons_of_mem _ (List.mem_cons_of_mem _ hs3))

lemma findPrevQuiz_split : ∀ (l : List ContentItem) (q : Quiz),
    findPrevQuiz l = some q →
      ∃ l1 l2, l = l1 ++ ContentItem.quiz q :: l2 ∧
        ∀ x ∈ l1, x.isQuiz = false := by
  intro l
  induction l with
  | nil => intro q h; simp [findPrevQuiz] at h
  | cons a rest ih =>
      intro q h
      cases a with
      | quiz q2 =>
          simp only [findPrevQuiz, Option.some.injEq] at h
          subst h
          exact ⟨[], rest, rfl, by simp⟩
      | chapter c =>
          simp only [findPrevQuiz] at h
          obtain ⟨l1, l2, heq, hall⟩ := ih q h
          refine ⟨ContentItem.chapter c :: l1, l2, by rw [heq]; rfl, ?_⟩
          intro x hx
          rcases List.mem_cons.1 hx with rfl | hx2
          · rfl
          · exact hall x hx2

lemma nearestPrecedingQuiz_split {catalog : List ContentItem} {i : Nat}
    {q : Quiz} (h : nearestPrecedingQuiz catalog i = some q) :
    ∃ l1 l2, catalog.take i = l1 ++ ContentItem.quiz q :: l2 ∧
      ∀ x ∈ l2, x.isQuiz = false := by
  obtain ⟨l1, l2, heq, hall⟩ := findPrevQuiz_split _ q h
  refine ⟨l2.reverse, l1.reverse, ?_, ?_⟩
  · have h2 := congrArg List.reverse heq
    rw [List.reverse_reverse] at h2
    rw [h2]
    simp
  · intro x hx
    exact hall x (List.mem_reverse.1 hx)

/-- C1 counterexample: a chapter requiring quiz `q1`, where the learner's
most recent result is 40 but an earlier result is 60 (best ≥ 50): the code
locks the chapter, while the claim (lock exactly when the best percentage is
below 50) requires it unlocked. -/
theorem c1_counterexample :
    (evalChapter true true
        (fun qid => if qid = "q1" then
            [⟨(40 : ℚ), 10⟩, ⟨(60 : ℚ), 5⟩] else [])
        [ContentItem.chapter ⟨"c1", 1, false, true, some "q1"⟩] 0
        ⟨"c1", 1, false, true, some "q1"⟩).isLocked = true ∧
    (50 : ℚ) ≤ (bestOf ⟨(40 : ℚ), 10⟩ [⟨(60 : ℚ), 5⟩]).percentage := by
  constructor
  · decide
  · norm_num [bestOf]

/-- C1 amended: for a chapter with `requirePassingQuiz` and a
`requiredQuizId`, the required-quiz rule locks exactly when the learner has
no result for that quiz or the MOST RECENT result's percentage (the
`take 1, orderBy submittedAt desc` fetch) is below 50 — the best percentage
is not consulted by this rule. -/
theorem c1_required_quiz_uses_latest (c : Chapter) (qid : String)
    (results : String → List QuizResult)
    (h1 : c.requirePassingQuiz = true) (h2 : c.requiredQuizId = some qid) :
    ((requiredQuizLock true true c results).isSome = true ↔
      results qid = [] ∨
        ∃ r, latestResult (results qid) = some r ∧ r.percentage < 50) := by
  cases hres : results qid with
  | nil => simp [requiredQuizLock, h1, h2, hres, latestResult]
  | cons r rest =>
      by_cases hm : (rest.foldl (fun acc cur =>
          if cur.submittedAt > acc.submittedAt then cur else acc)
            r).percentage < 50
      · simp [requiredQuizLock, h1, h2, hres, latestResult, hm]
      · simp [requiredQuizLock, h1, h2, hres, latestResult, hm]

/-- C1 witness: the amended theorem at a learner with no result for the
required quiz. -/
theorem c1_witness :
    ((requiredQuizLock true true ⟨"c1", 1, false, true, some "q1"⟩
        (fun _ => [])).isSome = true ↔
      ([] : List QuizResult) = [] ∨
        ∃ r, latestResult ([] : List QuizResult) = some r ∧
          r.percentage < 50) :=
  c1_required_quiz_uses_latest ⟨"c1", 1, false, true, some "q1"⟩ "q1"
    (fun _ => []) rfl rfl

/-- C3: the sequential rule locks an item iff a nearest preceding quiz
exists and the learner has no result for it or all their results
(equivalently the best) are below 50; the quiz found is the nearest one
(only non-quiz items sit between it and the current index), the decision
depends only on that quiz's results, and a quiz item's lock state under
access is exactly the sequential decision. -/
theorem c3_sequential_nearest_quiz (results : String → List QuizResult)
    (catalog : List ContentItem) (i : Nat) :
    ((seqLock results catalog i).isSome = true ↔
      ∃ q, nearestPrecedingQuiz catalog i = some q ∧
        (results q.id = [] ∨ ∀ r ∈ results q.id, r.percentage < 50)) ∧
    (∀ q, nearestPrecedingQuiz catalog i = some q →
      (∃ l1 l2, catalog.take i = l1 ++ ContentItem.quiz q :: l2 ∧
        ∀ x ∈ l2, x.isQuiz = false) ∧
      ∀ results2 : String → List QuizResult,
        results2 q.id = results q.id →
          seqLock results2 catalog i = seqLock results catalog i) ∧
    (evalQuiz true true results catalog i).isLocked =
      (seqLock results catalog i).isSome := by
  refine ⟨?_, ?_, ?_⟩
  · cases hn : nearestPrecedingQuiz catalog i with
    | none => simp [seqLock, hn]
    | some q =>
        cases hres : results q.id with
        | nil =>
            simp only [seqLock, hn, hres, Option.isSome_some, true_iff]
            exact ⟨q, rfl, Or.inl hres⟩
        | cons r rest =>
            by_cases hb : (bestOf r rest).percentage < 50
            · simp only [seqLock, hn, hres, if_pos hb, Option.isSome_some,
                true_iff]
              refine ⟨q, rfl, Or.inr ?_⟩
              rw [hres]
              exact (bestOf_lt_iff rest r 50).1 hb
            · simp only [seqLock, hn, hres, if_neg hb, Option.isSome_none,
                Bool.false_eq_true, false_iff]
              rintro ⟨q2, hq2, hcond⟩
              rw [Option.some.injEq] at hq2
              subst hq2
              rcases hcond with hnil | hall
              · rw [hres] at hnil
                exact List.cons_ne_nil r rest hnil
              · rw [hres] at hall
                exact hb ((bestOf_lt_iff rest r 50).2 hall)
  · intro q hq
    refine ⟨nearestPrecedingQuiz_split hq, ?_⟩
    intro results2 heq
    simp only [seqLock, hq, heq]
  · cases hs : seqLock results catalog i with
    | none => simp [evalQuiz, hs]
    | some reason => simp [evalQuiz, hs]

/-- C3 witness: the theorem's only-the-nearest-quiz-consulted part and the
quiz-item correspondence, at a concrete two-item catalog. -/
theorem c3_witness :
    seqLock
        (fun qid => if qid = "q1" then [⟨(60 : ℚ), 1⟩] else [⟨(10 : ℚ), 1⟩])
        [ContentItem.quiz ⟨"q1", "Q1", 1⟩,
          ContentItem.chapter ⟨"c1", 2, false, false, none⟩] 1 =
      seqLock (fun qid => if qid = "q1" then [⟨(60 : ℚ), 1⟩] else [])
        [ContentItem.quiz ⟨"q1", "Q1", 1⟩,
          ContentItem.chapter ⟨"c1", 2, false, false, none⟩] 1 ∧
    (evalQuiz true true
        (fun qid => if qid = "q1" then [⟨(60 : ℚ), 1⟩] else [])
        [ContentItem.quiz ⟨"q1", "Q1", 1⟩,
          ContentItem.chapter ⟨"c1", 2, false, false, none⟩] 1).isLocked =
      (seqLock (fun qid => if qid = "q1" then [⟨(60 : ℚ), 1⟩] else [])
        [ContentItem.quiz ⟨"q1", "Q1", 1⟩,
          ContentItem.chapter ⟨"c1", 2, false, false, none⟩] 1).isSome :=
  ⟨((c3_sequential_nearest_quiz
        (fun qid => if qid = "q1" then [⟨(60 : ℚ), 1⟩] else [])
        [ContentItem.quiz ⟨"q1", "Q1", 1⟩,
          ContentItem.chapter ⟨"c1", 2, false, false, none⟩] 1).2.1
      ⟨"q1", "Q1", 1⟩ rfl).2
      (fun qid => if qid = "q1" then [⟨(60 : ℚ), 1⟩] else [⟨(10 : ℚ), 1⟩])
      (by simp),
    (c3_sequential_nearest_quiz
        (fun qid => if qid = "q1" then [⟨(60 : ℚ), 1⟩] else [])
        [ContentItem.quiz ⟨"q1", "Q1", 1⟩,
          ContentItem.chapter ⟨"c1", 2, false, false, none⟩] 1).2.2⟩

lemma requiredQuizLock_no_access (hasUser : Bool) (c : Chapter)
    (results : String → List QuizResult) :
    requiredQuizLock false hasUser c results =
      if c.requirePassingQuiz && c.requiredQuizId.isSome then
        some buyCourseReason else none := by
  simp [requiredQuizLock]

lemma evalItem_no_access (hasUser : Bool) (results : String → List QuizResult)
    (catalog : List ContentItem) (i : Nat) (item : ContentItem) :
    evalItem false hasUser results catalog i item =
      match item with
      | .chapter c =>
          if c.requirePassingQuiz && c.requiredQuizId.isSome then
            (⟨true, some buyCourseReason⟩ : LockState)
          else ⟨false, none⟩
      | .quiz _ => ⟨false, none⟩ := by
  cases item with
  | chapter c =>
      simp only [evalItem, evalChapter, requiredQuizLock_no_access]
      by_cases h : (c.requirePassingQuiz && c.requiredQuizId.isSome) = true
      · rw [if_pos h, if_pos h]
      · rw [if_neg h, if_neg h]
        simp
  | quiz q => simp [evalItem, evalQuiz]

lemma annotateCatalog_no_access (hasUser : Bool)
    (results : String → List QuizResult) (catalog : List ContentItem) :
    annotateCatalog false hasUser results catalog =
      catalog.map (fun item =>
        (item, match item with
          | .chapter c =>
              if c.requirePassingQuiz && c.requiredQuizId.isSome then
                (⟨true, some buyCourseReason⟩ : LockState)
              else ⟨false, none⟩
          | .quiz _ => ⟨false, none⟩)) := by
  rw [annotateCatalog]
  rw [List.map_congr_left (fun p _ => by rw [evalItem_no_access])]
  have h2 : catalog.enum.map Prod.snd = catalog := List.enum_map_snd catalog
  calc catalog.enum.map (fun p => (p.2,
          match p.2 with
          | .chapter c =>
              if c.requirePassingQuiz && c.requiredQuizId.isSome then
                (⟨true, some buyCourseReason⟩ : LockState)
              else ⟨false, none⟩
          | .quiz _ => ⟨false, none⟩))
      = (catalog.enum.map Prod.snd).map (fun item => (item,
          match item with
          | .chapter c =>
              if c.requirePassingQuiz && c.requiredQuizId.isSome then
                (⟨true, some buyCourseReason⟩ : LockState)
              else ⟨false, none⟩
          | .quiz _ => ⟨false, none⟩)) := by rw [List.map_map]; rfl
    _ = _ := by rw [h2]

/-- C4 counterexample: with no course access, a non-free chapter with no
required quiz is returned with `isLocked = false` — the claim requires every
such item to be marked locked. -/
theorem c4_counterexample :
    (annotateCatalog false true (fun _ => [])
        [ContentItem.chapter ⟨"c1", 1, false, false, none⟩]).map
      (fun p => p.2.isLocked) = [false] := by decide

/-- C4 amended: every content item is annotated with `isLocked` and
`lockReason`; when the caller lacks course access, the content route marks
as locked only chapters with `requirePassingQuiz` and a `requiredQuizId`
(with a buy-the-course reason), while every other item — quizzes and
ordinary chapters, free or not — is returned unlocked. -/
theorem c4_lock_map_no_access (hasUser : Bool)
    (results : String → List QuizResult) (catalog : List ContentItem) :
    (annotateCatalog false hasUser results catalog).map Prod.fst = catalog ∧
    (annotateCatalog false hasUser results catalog).map
        (fun p => p.2.isLocked) =
      catalog.map (fun item =>
        match item with
        | .chapter c => c.requirePassingQuiz && c.requiredQuizId.isSome
        | .quiz _ => false) ∧
    (annotateCatalog false hasUser results catalog).map
        (fun p => p.2.lockReason) =
      catalog.map (fun item =>
        match item with
        | .chapter c =>
            if c.requirePassingQuiz && c.requiredQuizId.isSome then
              some buyCourseReason else none
        | .quiz _ => none) := by
  rw [annotateCatalog_no_access]
  refine ⟨?_, ?_, ?_⟩
  · rw [List.map_map]
    exact List.map_id catalog
  · rw [List.map_map]
    refine List.map_congr_left ?_
    intro item _
    cases item with
    | chapter c =>
        by_cases h : (c.requirePassingQuiz && c.requiredQuizId.isSome) = true
        · simp [Function.comp, h]
        · simp only [Bool.not_eq_true] at h
          simp [Function.comp, h]
    | quiz q => rfl
  · rw [List.map_map]
    refine List.map_congr_left ?_
    intro item _
    cases item with
    | chapter c =>
        by_cases h : (c.requirePassingQuiz && c.requiredQuizId.isSome) = true
        · simp [Function.comp, h]
        · simp only [Bool.not_eq_true] at h
          simp [Function.comp, h]
    | quiz q => rfl

end InfinityMath
